import Mathlib

/-!
Shallow embedding of the CS428-Proxy repository (two source variants:
`src/concurrentproxy.c`, the threaded proxy, and `src/unnamed/part_000`,
the sequential `proxy.c`).  C byte strings are modelled as `List Char`
(all data handled by the proxy is single-byte); C library calls
(`strcasecmp`, `strncasecmp`, `strstr`, `strpbrk`, `strchr`, `atoi`) are
modelled faithfully below.  The per-connection transaction pipeline of
each variant is embedded as a pure function from the request-line tokens,
the blocklist and an environment (connect success, upstream response
chunks, timestamp, client IP) to a record of everything the transaction
does: status sent, bytes written to the client, whether URI resolution
and the upstream connect were attempted, the upstream request bytes, and
the log entries appended.
-/

set_option maxRecDepth 4000

namespace CS428Proxy

/-- C byte strings (NUL-free, as produced by `sscanf %s`). -/
abbrev Str := List Char

/-- Embed a Lean string literal as a C byte string. -/
def strOf (s : String) : Str := s.toList

/-- ASCII `tolower`, as used by `strcasecmp` / `strncasecmp`. -/
def lowerC (c : Char) : Char :=
  if 'A' ≤ c ∧ c ≤ 'Z' then Char.ofNat (c.toNat + 32) else c

/-- `strcasecmp(a, b) == 0`: case-insensitive equality of whole strings. -/
def strcaseEq : Str → Str → Bool
  | [], [] => true
  | [], _ :: _ => false
  | _ :: _, [] => false
  | a :: as, b :: bs => (lowerC a == lowerC b) && strcaseEq as bs

/-- `strncasecmp(a, b, n) == 0`: case-insensitive equality of the first
`n` characters (a string ending early only matches if both end). -/
def strncaseEq : Str → Str → Nat → Bool
  | _, _, 0 => true
  | [], [], _ + 1 => true
  | [], _ :: _, _ + 1 => false
  | _ :: _, [], _ + 1 => false
  | a :: as, b :: bs, n + 1 => (lowerC a == lowerC b) && strncaseEq as bs n

/-- `needle` occurs at the start of `hay`. -/
def hasPrefixB : Str → Str → Bool
  | _, [] => true
  | [], _ :: _ => false
  | a :: as, b :: bs => (a == b) && hasPrefixB as bs

/-- `strstr(hay, needle) != NULL`: `needle` occurs contiguously in `hay`
(case-sensitive). -/
def strstrB : Str → Str → Bool
  | [], needle => hasPrefixB [] needle
  | c :: t, needle => hasPrefixB (c :: t) needle || strstrB t needle

/-- Index of the first character of `s` contained in `accept`
(`strpbrk`, as an index). -/
def strpbrkIdx (accept : Str) : Str → Option Nat
  | [] => none
  | c :: t => if accept.contains c then some 0 else (strpbrkIdx accept t).map (· + 1)

/-- Index of the first occurrence of `c` in `s` (`strchr`, as an index). -/
def strchrIdx (c : Char) : Str → Option Nat
  | [] => none
  | a :: t => if a == c then some 0 else (strchrIdx c t).map (· + 1)

/-- The whitespace class used by C `isspace` (and `sscanf`). -/
def isSpaceC (c : Char) : Bool :=
  c == ' ' || c == '\t' || c == '\n' || c == '\r' || c == Char.ofNat 11 || c == Char.ofNat 12

/-- Value of the leading decimal-digit run of `s`. -/
def digitsVal (s : Str) : Nat :=
  (s.takeWhile Char.isDigit).foldl (fun a c => a * 10 + (c.toNat - 48)) 0

/-- C `atoi`: skip whitespace, optional sign, then a decimal-digit run;
yields 0 when no digits are found. -/
def atoi (s : Str) : Int :=
  let t := s.dropWhile isSpaceC
  match t with
  | '-' :: r => -(digitsVal r : Int)
  | '+' :: r => (digitsVal r : Int)
  | _ => (digitsVal t : Int)

/-- Result of `parse_uri`: hostname, pathname and port out-parameters. -/
structure UriParts where
  hostname : Str
  pathname : Str
  port : Int
deriving DecidableEq, Repr

/-- The `strpbrk` accept set `" :/\r\n"` used to find the end of the host
(the trailing `\0` of the C literal terminates the set). -/
def boundarySet : Str := [' ', ':', '/', '\r', '\n']

/-- `parse_uri` of `src/concurrentproxy.c` (lines 181-218): accepts only
an `http://` prefix; the hostname runs from offset 7 to the first
boundary character; a `:` boundary sends the rest to `atoi` for the
port, else port 80; the path starts at the first `/` after the prefix,
defaulting to `"/"`. Failure (`-1`) is `none`. -/
def parse_uri (uri : Str) : Option UriParts :=
  if strncaseEq uri (strOf "http://") 7 then
    let hostbegin := uri.drop 7
    match strpbrkIdx boundarySet hostbegin with
    | none => none
    | some i =>
      let hostname := hostbegin.take i
      let port : Int := if hostbegin.get? i = some ':' then atoi (hostbegin.drop (i + 1)) else 80
      let pathname : Str :=
        match strchrIdx '/' hostbegin with
        | some j => hostbegin.drop j
        | none => strOf "/"
      some ⟨hostname, pathname, port⟩
  else none

/-- `parse_uri` of `src/unnamed/part_000` (lines 176-215): also accepts
an `https://` prefix, but the subsequent `hostbegin = uri + 7` assignment
unconditionally resets the host start to offset 7; the rest is identical
to the concurrent variant. -/
def parse_uri_seq (uri : Str) : Option UriParts :=
  if strncaseEq uri (strOf "http://") 7 || strncaseEq uri (strOf "https://") 8 then
    let hostbegin := uri.drop 7
    match strpbrkIdx boundarySet hostbegin with
    | none => none
    | some i =>
      let hostname := hostbegin.take i
      let port : Int := if hostbegin.get? i = some ':' then atoi (hostbegin.drop (i + 1)) else 80
      let pathname : Str :=
        match strchrIdx '/' hostbegin with
        | some j => hostbegin.drop j
        | none => strOf "/"
      some ⟨hostname, pathname, port⟩
  else none

/-- The fixed `user_agent_hdr` constant shared by both variants. -/
def user_agent_hdr : Str :=
  strOf "User-Agent: Mozilla/5.0 (X11; Linux x86_64; rv:10.0.3) Gecko/20120305 Firefox/10.0.3\r\n"

/-- Request bytes sent upstream by `concurrentproxy.c` (lines 131-133):
note the `"User-Agent: %s"` format prepends a second `User-Agent: ` to
`user_agent_hdr`, which itself already carries the field name. -/
def upstreamRequestConc (method pathname hostname : Str) : Str :=
  method ++ strOf " " ++ (if pathname = [] then strOf "/" else pathname) ++
    strOf " HTTP/1.0\r\nHost: " ++ hostname ++ strOf "\r\n" ++
    strOf "User-Agent: " ++ user_agent_hdr ++
    strOf "Connection: close\r\nProxy-Connection: close\r\n\r\n"

/-- Request bytes sent upstream by `part_000` (lines 118-120): the
`"%s"` format inserts `user_agent_hdr` as-is. -/
def upstreamRequestSeq (method pathname hostname : Str) : Str :=
  method ++ strOf " " ++ (if pathname = [] then strOf "/" else pathname) ++
    strOf " HTTP/1.0\r\nHost: " ++ hostname ++ strOf "\r\n" ++
    user_agent_hdr ++
    strOf "Connection: close\r\nProxy-Connection: close\r\n\r\n"

/-- HTML error body built by `clienterror` in `concurrentproxy.c`
(lines 159-163; the `""ffffff""` in the source is C literal
concatenation, so no quotes appear in the output). -/
def clienterrorBody (cause errnum shortmsg longmsg : Str) : Str :=
  strOf "<html><title>Proxy Error</title>" ++ strOf "<body bgcolor=ffffff>\r\n" ++
    errnum ++ strOf ": " ++ shortmsg ++ strOf "\r\n" ++
    strOf "<p>" ++ longmsg ++ strOf ": " ++ cause ++ strOf "\r\n" ++
    strOf "<hr><em>The CS:APP Proxy Server</em>\r\n"

/-- Decimal rendering of a byte count (`sprintf %d`, non-negative). -/
def natChars (n : Nat) : Str := (toString n).toList

/-- Full error response of `clienterror` in `concurrentproxy.c`
(lines 166-170): status line, `Content-type`, `Content-length` equal to
the body's byte length, blank line, then the body; the two `Rio_writen`
calls are concatenated here as the bytes reaching the client socket. -/
def clienterrorResponse (cause errnum shortmsg longmsg : Str) : Str :=
  let body := clienterrorBody cause errnum shortmsg longmsg
  strOf "HTTP/1.0 " ++ errnum ++ strOf " " ++ shortmsg ++ strOf "\r\n" ++
    strOf "Content-type: text/html\r\n" ++
    strOf "Content-length: " ++ natChars body.length ++ strOf "\r\n\r\n" ++ body

/-- HTML error body built by `clienterror` in `part_000` (line 162). -/
def clienterrorBodySeq (cause errnum shortmsg longmsg : Str) : Str :=
  strOf "<html><title>Proxy Error</title><body bgcolor=\"ffffff\">" ++
    errnum ++ strOf ": " ++ shortmsg ++
    strOf "<p>" ++ longmsg ++ strOf ": " ++ cause ++
    strOf "<hr><em>The CS:APP Proxy Server</em></body></html>"

/-- Full error response of `clienterror` in `part_000` (lines 163-165). -/
def clienterrorResponseSeq (cause errnum shortmsg longmsg : Str) : Str :=
  let body := clienterrorBodySeq cause errnum shortmsg longmsg
  strOf "HTTP/1.0 " ++ errnum ++ strOf " " ++ shortmsg ++ strOf "\r\n" ++
    strOf "Content-type: text/html\r\n" ++
    strOf "Content-length: " ++ natChars body.length ++ strOf "\r\n\r\n" ++ body

/-- `format_log_entry` (identical in both variants): produces
`[<timestamp>] <client-ip> <uri> <size>`. -/
def format_log_entry (timeStr hostIP uri : Str) (size : Nat) : Str :=
  strOf "[" ++ timeStr ++ strOf "] " ++ hostIP ++ strOf " " ++ uri ++ strOf " " ++ natChars size

/-- The response-relay loop (`Rio_readlineb` / `Rio_writen` / `size += n`):
given the chunks read from upstream, returns the bytes forwarded to the
client and the accumulated `size` counter. -/
def relayLoop : List Str → Str × Nat
  | [] => ([], 0)
  | c :: cs => ((c ++ (relayLoop cs).1), c.length + (relayLoop cs).2)

/-- Blocklist test of `concurrentproxy.c` (lines 108-113):
`strstr(uri, blocklist[i]) != NULL` for some entry — a case-sensitive
substring test against the raw URI. -/
def blockedConc (blocklist : List Str) (uri : Str) : Bool :=
  blocklist.any (fun b => strstrB uri b)

/-- Blocklist test of `part_000` (lines 103-108):
`strcasecmp(hostname, blocklist[i]) == 0` for some entry — exact
case-insensitive equality against the resolved hostname. -/
def blockedSeq (blocklist : List Str) (hostname : Str) : Bool :=
  blocklist.any (fun b => strcaseEq hostname b)

/-- The method filter shared by both variants:
`strcasecmp(method, "GET") == 0 || strcasecmp(method, "HEAD") == 0`. -/
def isGetOrHead (m : Str) : Bool :=
  strcaseEq m (strOf "GET") || strcaseEq m (strOf "HEAD")

/-- Environment of one transaction: whether `Open_clientfd` succeeds, the
chunks `Rio_readlineb` yields from the upstream socket, and the timestamp
and client-IP strings used by `format_log_entry`. -/
structure ProxyEnv where
  connectOk : Bool
  responseChunks : List Str
  timestamp : Str
  clientIP : Str
deriving DecidableEq

/-- Observable effects of one transaction. -/
structure ProxyResult where
  statusSent : Option Str
  clientBytes : Str
  parseAttempted : Bool
  connectAttempted : Bool
  upstreamRequest : Option Str
  logEntries : List Str
deriving DecidableEq

/-- The transaction pipeline of `proxy` in `concurrentproxy.c`
(lines 88-148): method filter, then the substring blocklist test on the
raw URI, then `parse_uri`, then connect, then the one-write upstream
request, the relay loop, and the log append. -/
def proxyConc (blocklist : List Str) (method uri version : Str) (env : ProxyEnv) : ProxyResult :=
  if !isGetOrHead method then
    { statusSent := some (strOf "501"),
      clientBytes := clienterrorResponse method (strOf "501") (strOf "Not Implemented")
        (strOf "This method is not implemented by the proxy"),
      parseAttempted := false, connectAttempted := false,
      upstreamRequest := none, logEntries := [] }
  else if blockedConc blocklist uri then
    { statusSent := some (strOf "403"),
      clientBytes := clienterrorResponse (strOf "Blocked") (strOf "403") (strOf "Forbidden")
        (strOf "This site is blocked by the proxy."),
      parseAttempted := false, connectAttempted := false,
      upstreamRequest := none, logEntries := [] }
  else
    match parse_uri uri with
    | none =>
      { statusSent := some (strOf "400"),
        clientBytes := clienterrorResponse uri (strOf "400") (strOf "Bad Request")
          (strOf "Proxy cannot parse the request"),
        parseAttempted := true, connectAttempted := false,
        upstreamRequest := none, logEntries := [] }
    | some r =>
      if !env.connectOk then
        { statusSent := some (strOf "404"),
          clientBytes := clienterrorResponse r.hostname (strOf "404") (strOf "Not found")
            (strOf "Cannot connect to the host"),
          parseAttempted := true, connectAttempted := true,
          upstreamRequest := none, logEntries := [] }
      else
        { statusSent := none,
          clientBytes := (relayLoop env.responseChunks).1,
          parseAttempted := true, connectAttempted := true,
          upstreamRequest := some (upstreamRequestConc method r.pathname r.hostname),
          logEntries := [format_log_entry env.timestamp env.clientIP uri
            (relayLoop env.responseChunks).2] }

/-- The transaction pipeline of `proxy` in `part_000` (lines 80-136):
method filter, then `parse_uri`, then the case-insensitive hostname
blocklist test, then connect, relay and log. -/
def proxySeq (blocklist : List Str) (method uri version : Str) (env : ProxyEnv) : ProxyResult :=
  if !isGetOrHead method then
    { statusSent := some (strOf "501"),
      clientBytes := clienterrorResponseSeq method (strOf "501") (strOf "Not Implemented")
        (strOf "Method not implemented"),
      parseAttempted := false, connectAttempted := false,
      upstreamRequest := none, logEntries := [] }
  else
    match parse_uri_seq uri with
    | none =>
      { statusSent := some (strOf "400"),
        clientBytes := clienterrorResponseSeq uri (strOf "400") (strOf "Bad Request")
          (strOf "Cannot parse the request"),
        parseAttempted := true, connectAttempted := false,
        upstreamRequest := none, logEntries := [] }
    | some r =>
      if blockedSeq blocklist r.hostname then
        { statusSent := some (strOf "403"),
          clientBytes := clienterrorResponseSeq (strOf "Blocked") (strOf "403") (strOf "Forbidden")
            (strOf "This site is blocked by the proxy."),
          parseAttempted := true, connectAttempted := false,
          upstreamRequest := none, logEntries := [] }
      else if !env.connectOk then
        { statusSent := some (strOf "404"),
          clientBytes := clienterrorResponseSeq r.hostname (strOf "404") (strOf "Not Found")
            (strOf "Cannot connect to the host"),
          parseAttempted := true, connectAttempted := true,
          upstreamRequest := none, logEntries := [] }
      else
        { statusSent := none,
          clientBytes := (relayLoop env.responseChunks).1,
          parseAttempted := true, connectAttempted := true,
          upstreamRequest := some (upstreamRequestSeq method r.pathname r.hostname),
          logEntries := [format_log_entry env.timestamp env.clientIP uri
            (relayLoop env.responseChunks).2] }

/-- `sscanf(buf, "%s %s %s", ...)` field splitting of the request line. -/
def splitTokens (s : Str) : List Str :=
  (s.splitOnP isSpaceC).filter (fun t => t ≠ [])

/-- The entry of the transaction including the initial `Rio_readlineb`:
`none` models a read that yields nothing (EOF), on which the handler
returns without any response or log entry. -/
def proxyConcLine (blocklist : List Str) (requestLine : Option Str) (env : ProxyEnv) :
    ProxyResult :=
  match requestLine with
  | none =>
    { statusSent := none, clientBytes := [], parseAttempted := false,
      connectAttempted := false, upstreamRequest := none, logEntries := [] }
  | some line =>
    let toks := splitTokens line
    proxyConc blocklist ((toks.get? 0).getD []) ((toks.get? 1).getD [])
      ((toks.get? 2).getD []) env

/-- The single User-Agent header line sent by the concurrent variant:
the `"User-Agent: %s"` format applied to `user_agent_hdr`, which already
begins with the field name, so the line carries a doubled prefix. -/
def uaLineConc : Str := strOf "User-Agent: " ++ user_agent_hdr

/-- Number of positions of `hay` at which `needle` occurs. -/
def countOcc (needle : Str) : Str → Nat
  | [] => 0
  | c :: t => (if hasPrefixB (c :: t) needle then 1 else 0) + countOcc needle t

/-- Atomic actions of the logging path of one handler thread in
`concurrentproxy.c`: `doFormat` abstracts the `format_log_entry` call
(which writes only a thread-local buffer), `lock` and `unlock` are the
`pthread_mutex` operations inside `log_request`, `write c` is one byte
of the `fprintf`, and `flush` the `fflush`. -/
inductive LogAction where
  | doFormat
  | lock
  | write (c : Char)
  | flush
  | unlock
deriving DecidableEq, Repr

/-- The body of `log_request` (`concurrentproxy.c` lines 264-271):
lock the mutex, write the pre-formatted entry plus a newline, flush,
unlock. -/
def log_request_actions (entry : Str) : List LogAction :=
  [LogAction.lock] ++ (entry ++ strOf "\n").map LogAction.write ++
    [LogAction.flush, LogAction.unlock]

/-- The logging tail of `proxy` (`concurrentproxy.c` lines 143-145):
`format_log_entry` into the thread-local buffer, then `log_request`. -/
def log_path_actions (entry : Str) : List LogAction :=
  LogAction.doFormat :: log_request_actions entry

/-- The critical section of a thread program: the actions strictly
between its `lock` and its `unlock`. -/
def criticalSection (p : List LogAction) : List LogAction :=
  ((p.dropWhile (fun a => !(a == LogAction.lock))).drop 1).takeWhile
    (fun a => !(a == LogAction.unlock))

/-- State of the shared log under concurrent handlers: the mutex owner,
each thread's remaining program, and the bytes written to the log file
so far. -/
structure LogSys where
  holder : Option Nat
  progs : List (List LogAction)
  out : Str
deriving DecidableEq, Repr

/-- One scheduler step: thread `i` performs its next action. `none`
means the step cannot happen here: the thread is finished, tries to
lock a held mutex (it would block), or unlocks a mutex it does not
hold. Writes and flushes are deliberately unguarded — nothing in the
semantics itself stops a program from writing without the lock. -/
def logStep (s : LogSys) (i : Nat) : Option LogSys :=
  match s.progs.getD i [] with
  | [] => none
  | a :: rest =>
    match a with
    | LogAction.doFormat => some { s with progs := s.progs.set i rest }
    | LogAction.lock =>
      match s.holder with
      | none => some { holder := some i, progs := s.progs.set i rest, out := s.out }
      | some _ => none
    | LogAction.write c => some { s with progs := s.progs.set i rest, out := s.out ++ [c] }
    | LogAction.flush => some { s with progs := s.progs.set i rest }
    | LogAction.unlock =>
      if s.holder = some i then
        some { holder := none, progs := s.progs.set i rest, out := s.out }
      else none

/-- Run a schedule (a list of thread indices) from a state. -/
def logRun : List Nat → LogSys → Option LogSys
  | [], s => some s
  | i :: sch, s =>
    match logStep s i with
    | none => none
    | some s2 => logRun sch s2

/-- Initial state: one handler thread per log entry, nothing written. -/
def logInit (entries : List Str) : LogSys :=
  { holder := none, progs := entries.map log_path_actions, out := [] }

/-- The complete record thread `i` appends: its entry plus newline. -/
def logRecord (entries : List Str) (i : Nat) : Str :=
  entries.getD i [] ++ strOf "\n"

/-- Remaining-program shapes of a thread that does not hold the mutex
and is not finished: the full logging path, or the path with the
(thread-local) format step already done. -/
def idleProg (entries : List Str) (i : Nat) (p : List LogAction) : Prop :=
  p = log_path_actions (entries.getD i []) ∨ p = log_request_actions (entries.getD i [])

/-- Remaining-program shapes of the mutex holder, together with the
partial record `written` it has pushed to the log so far. -/
def holdProg (rec : Str) (p : List LogAction) (written : Str) : Prop :=
  (∃ n, n ≤ rec.length ∧ written = rec.take n ∧
    p = (rec.drop n).map LogAction.write ++ [LogAction.flush, LogAction.unlock]) ∨
  (written = rec ∧ p = [LogAction.unlock])

/-- Machine invariant: some set `done` of threads has fully appended its
records (in list order) and everything else is either idle before its
critical section or is the unique mutex holder mid-append. -/
def LogInv (entries : List Str) (s : LogSys) : Prop :=
  s.progs.length = entries.length ∧
  ∃ done : List Nat, done.Nodup ∧ (∀ i ∈ done, i < entries.length) ∧
    match s.holder with
    | none =>
      s.out = (done.map (logRecord entries)).flatten ∧
      ∀ i, i < entries.length →
        (i ∈ done → s.progs.getD i [] = []) ∧
        (i ∉ done → idleProg entries i (s.progs.getD i []))
    | some j =>
      j < entries.length ∧ j ∉ done ∧
      ∃ written,
        s.out = (done.map (logRecord entries)).flatten ++ written ∧
        holdProg (logRecord entries j) (s.progs.getD j []) written ∧
        ∀ i, i < entries.length → i ≠ j →
          (i ∈ done → s.progs.getD i [] = []) ∧
          (i ∉ done → idleProg entries i (s.progs.getD i []))

/-! ## Helper lemmas -/

theorem strncaseEq_zero (a b : Str) : strncaseEq a b 0 = true := by
  cases a <;> cases b <;> rfl

theorem strncaseEq_append_self : ∀ (l x : Str), strncaseEq (l ++ x) l l.length = true := by
  intro l
  induction l with
  | nil => intro x; cases x <;> rfl
  | cons c t ih =>
    intro x
    have h1 : strncaseEq ((c :: t) ++ x) (c :: t) (c :: t).length =
        ((lowerC c == lowerC c) && strncaseEq (t ++ x) t t.length) := rfl
    rw [h1, ih x]
    simp

theorem strpbrkIdx_first_hit (accept : Str) :
    ∀ (pre : Str) (x : Char) (rest : Str),
      (∀ c ∈ pre, accept.contains c = false) → accept.contains x = true →
      strpbrkIdx accept (pre ++ x :: rest) = some pre.length := by
  intro pre
  induction pre with
  | nil =>
    intro x rest _ hx
    simp [strpbrkIdx]
    simpa using hx
  | cons c t ih =>
    intro x rest hpre hx
    have hc : accept.contains c = false := hpre c (by simp)
    have := ih x rest (fun d hd => hpre d (by simp [hd])) hx
    simp [strpbrkIdx, this]
    simpa using hc

theorem get_opt_append_cons {α} :
    ∀ (pre : List α) (x : α) (rest : List α), (pre ++ x :: rest).get? pre.length = some x := by
  intro pre
  induction pre with
  | nil => intro x rest; rfl
  | cons c t ih => intro x rest; exact ih x rest

theorem drop_append_cons_succ {α} :
    ∀ (pre : List α) (x : α) (rest : List α), (pre ++ x :: rest).drop (pre.length + 1) = rest := by
  intro pre
  induction pre with
  | nil => intro x rest; rfl
  | cons c t ih => intro x rest; exact ih x rest

theorem take_append_self {α} :
    ∀ (pre suf : List α), (pre ++ suf).take pre.length = pre := by
  intro pre
  induction pre with
  | nil => intro suf; rfl
  | cons c t ih => intro suf; simpa using ih suf

theorem drop_append_self {α} :
    ∀ (pre suf : List α), (pre ++ suf).drop pre.length = suf := by
  intro pre
  induction pre with
  | nil => intro suf; rfl
  | cons c t ih => intro suf; exact ih suf

theorem mem_of_mem_dropWhileC : ∀ (l : Str) (c : Char), c ∈ l.dropWhile isSpaceC → c ∈ l := by
  intro l
  induction l with
  | nil => intro c h; simpa [List.dropWhile] using h
  | cons a t ih =>
    intro c h
    by_cases ha : isSpaceC a
    · simp only [List.dropWhile, ha] at h
      exact List.mem_cons_of_mem a (ih c h)
    · simp only [List.dropWhile, ha] at h
      simpa using h

theorem takeWhile_digits_nil (l : Str) (h : ∀ c ∈ l, c.isDigit = false) :
    l.takeWhile Char.isDigit = [] := by
  cases l with
  | nil => rfl
  | cons a t => simp [List.takeWhile_cons, h a (by simp)]

theorem digitsVal_no_digit (l : Str) (h : ∀ c ∈ l, c.isDigit = false) : digitsVal l = 0 := by
  simp [digitsVal, takeWhile_digits_nil l h]

theorem atoi_no_digits (s : Str) (h : ∀ c ∈ s, c.isDigit = false) : atoi s = 0 := by
  have hsub : ∀ c ∈ s.dropWhile isSpaceC, c.isDigit = false :=
    fun c hc => h c (mem_of_mem_dropWhileC s c hc)
  unfold atoi
  dsimp only
  split
  · rename_i r heq
    have hr : ∀ c ∈ r, c.isDigit = false := fun c hc => by
      have : c ∈ s.dropWhile isSpaceC := by rw [heq]; exact List.mem_cons_of_mem _ hc
      exact hsub c this
    simp [digitsVal_no_digit r hr]
  · rename_i r heq
    have hr : ∀ c ∈ r, c.isDigit = false := fun c hc => by
      have : c ∈ s.dropWhile isSpaceC := by rw [heq]; exact List.mem_cons_of_mem _ hc
      exact hsub c this
    simp [digitsVal_no_digit r hr]
  · simp [digitsVal_no_digit _ hsub]

theorem hasPrefixB_self_append : ∀ (s t : Str), hasPrefixB (s ++ t) s = true := by
  intro s
  induction s with
  | nil => intro t; cases t <;> rfl
  | cons c cs ih =>
    intro t
    have h1 : hasPrefixB ((c :: cs) ++ t) (c :: cs) =
        ((c == c) && hasPrefixB (cs ++ t) cs) := rfl
    rw [h1, ih t]
    simp

theorem strstrB_prefix_occurrence (b c : Str) : strstrB (b ++ c) b = true := by
  cases b with
  | nil => cases c <;> rfl
  | cons x xs =>
    have h1 : strstrB ((x :: xs) ++ c) (x :: xs) =
        (hasPrefixB ((x :: xs) ++ c) (x :: xs) || strstrB (xs ++ c) (x :: xs)) := rfl
    rw [h1, hasPrefixB_self_append]
    simp

theorem strstrB_append_left (a s n : Str) (h : strstrB s n = true) : strstrB (a ++ s) n = true := by
  induction a with
  | nil => exact h
  | cons c t ih =>
    have h1 : strstrB ((c :: t) ++ s) n =
        (hasPrefixB ((c :: t) ++ s) n || strstrB (t ++ s) n) := rfl
    rw [h1, ih]
    simp

theorem strchrIdx_some_drop :
    ∀ (s : Str) (c : Char) (j : Nat), strchrIdx c s = some j → ∃ t, s.drop j = c :: t := by
  intro s
  induction s with
  | nil => intro c j h; simp [strchrIdx] at h
  | cons a tl ih =>
    intro c j h
    by_cases hac : a == c
    · have ha : a = c := eq_of_beq hac
      simp [strchrIdx, hac] at h
      exact ⟨tl, by simp [← h, ha]⟩
    · simp [strchrIdx, hac] at h
      obtain ⟨j2, hj2, rfl⟩ := h
      obtain ⟨t, ht⟩ := ih c j2 hj2
      exact ⟨t, by simpa using ht⟩

theorem parse_uri_path_ne_nil (uri : Str) (r : UriParts)
    (h : parse_uri uri = some r) : r.pathname ≠ [] := by
  unfold parse_uri at h
  split at h
  · dsimp only at h
    split at h
    · exact absurd h (by simp)
    · rename_i i hi
      rw [Option.some_inj] at h
      subst h
      dsimp only
      split
      · rename_i j hj
        obtain ⟨t, ht⟩ := strchrIdx_some_drop _ _ _ hj
        simp [ht]
      · simp [strOf]
  · exact absurd h (by simp)

theorem parse_uri_seq_path_ne_nil (uri : Str) (r : UriParts)
    (h : parse_uri_seq uri = some r) : r.pathname ≠ [] := by
  unfold parse_uri_seq at h
  split at h
  · dsimp only at h
    split at h
    · exact absurd h (by simp)
    · rename_i i hi
      rw [Option.some_inj] at h
      subst h
      dsimp only
      split
      · rename_i j hj
        obtain ⟨t, ht⟩ := strchrIdx_some_drop _ _ _ hj
        simp [ht]
      · simp [strOf]
  · exact absurd h (by simp)

theorem relayLoop_fst_flatten : ∀ cs : List Str, (relayLoop cs).1 = cs.flatten := by
  intro cs
  induction cs with
  | nil => rfl
  | cons c t ih => simp [relayLoop, ih]

theorem relayLoop_snd_length : ∀ cs : List Str, (relayLoop cs).2 = (relayLoop cs).1.length := by
  intro cs
  induction cs with
  | nil => rfl
  | cons c t ih => simp [relayLoop, ih]

/-! ## Claim theorems -/

/-- C4: for every request line whose method token is neither GET nor
HEAD under case-insensitive comparison, both variants send status 501
"Not Implemented" and abort, and URI resolution is never attempted. -/
theorem method_filter_precedes_parse (bl : List Str) (m uri v : Str) (env : ProxyEnv)
    (h : isGetOrHead m = false) :
    (proxyConc bl m uri v env).statusSent = some (strOf "501") ∧
    (proxyConc bl m uri v env).parseAttempted = false ∧
    (proxyConc bl m uri v env).connectAttempted = false ∧
    (proxySeq bl m uri v env).statusSent = some (strOf "501") ∧
    (proxySeq bl m uri v env).parseAttempted = false ∧
    (proxySeq bl m uri v env).connectAttempted = false := by
  simp [proxyConc, proxySeq, h]

/-- Witness for C4 at the concrete method POST. -/
theorem method_filter_precedes_parse_witness :
    isGetOrHead (strOf "POST") = false ∧
    ((proxyConc [] (strOf "POST") (strOf "http://x/") (strOf "HTTP/1.1")
        ⟨true, [], [], []⟩).statusSent = some (strOf "501") ∧
      (proxyConc [] (strOf "POST") (strOf "http://x/") (strOf "HTTP/1.1")
        ⟨true, [], [], []⟩).parseAttempted = false ∧
      (proxyConc [] (strOf "POST") (strOf "http://x/") (strOf "HTTP/1.1")
        ⟨true, [], [], []⟩).connectAttempted = false ∧
      (proxySeq [] (strOf "POST") (strOf "http://x/") (strOf "HTTP/1.1")
        ⟨true, [], [], []⟩).statusSent = some (strOf "501") ∧
      (proxySeq [] (strOf "POST") (strOf "http://x/") (strOf "HTTP/1.1")
        ⟨true, [], [], []⟩).parseAttempted = false ∧
      (proxySeq [] (strOf "POST") (strOf "http://x/") (strOf "HTTP/1.1")
        ⟨true, [], [], []⟩).connectAttempted = false) :=
  ⟨by decide,
    method_filter_precedes_parse [] (strOf "POST") (strOf "http://x/") (strOf "HTTP/1.1")
      ⟨true, [], [], []⟩ (by decide)⟩

/-- C1 counterexample: in the concurrent variant the filter is a
case-sensitive substring test on the raw URI, so a request whose
resolved hostname is case-insensitively equal to the blocklist entry
`example.com` is not blocked: it receives no 403 and the upstream
connection is attempted. -/
theorem blocklist_policy_counterexample :
    parse_uri (strOf "http://EXAMPLE.com/x") =
      some ⟨strOf "EXAMPLE.com", strOf "/x", 80⟩ ∧
    strcaseEq (strOf "EXAMPLE.com") (strOf "example.com") = true ∧
    (proxyConc [strOf "example.com"] (strOf "GET") (strOf "http://EXAMPLE.com/x")
      (strOf "HTTP/1.1") ⟨true, [], [], []⟩).statusSent = none ∧
    (proxyConc [strOf "example.com"] (strOf "GET") (strOf "http://EXAMPLE.com/x")
      (strOf "HTTP/1.1") ⟨true, [], [], []⟩).connectAttempted = true := by
  refine ⟨by decide, by decide, rfl, rfl⟩

/-- C1 amended: the sequential variant enforces the stated policy —
403 before any connect attempt exactly when the resolved hostname is
case-insensitively equal to some entry; the concurrent variant instead
sends 403 exactly when some entry occurs case-sensitively as a
substring of the raw URI. -/
theorem blocklist_policy_amended :
    (∀ bl m uri v env r, isGetOrHead m = true → parse_uri_seq uri = some r →
      (blockedSeq bl r.hostname = true →
        (proxySeq bl m uri v env).statusSent = some (strOf "403") ∧
        (proxySeq bl m uri v env).connectAttempted = false ∧
        (proxySeq bl m uri v env).upstreamRequest = none) ∧
      (blockedSeq bl r.hostname = false →
        (proxySeq bl m uri v env).statusSent ≠ some (strOf "403") ∧
        (proxySeq bl m uri v env).connectAttempted = true)) ∧
    (∀ bl m uri v env, isGetOrHead m = true →
      ((proxyConc bl m uri v env).statusSent = some (strOf "403") ↔
        blockedConc bl uri = true)) := by
  constructor
  · intro bl m uri v env r hm hp
    constructor
    · intro hb
      simp [proxySeq, hm, hp, hb]
    · intro hb
      cases hc : env.connectOk with
      | false =>
        constructor
        · have hval : (proxySeq bl m uri v env).statusSent = some (strOf "404") := by
            simp [proxySeq, hm, hp, hb, hc]
          rw [hval]
          decide
        · simp [proxySeq, hm, hp, hb, hc]
      | true =>
        constructor
        · simp [proxySeq, hm, hp, hb, hc]
        · simp [proxySeq, hm, hp, hb, hc]
  · intro bl m uri v env hm
    constructor
    · intro h
      cases hb : blockedConc bl uri with
      | true => rfl
      | false =>
        exfalso
        cases hp : parse_uri uri with
        | none =>
          have hval : (proxyConc bl m uri v env).statusSent = some (strOf "400") := by
            simp [proxyConc, hm, hb, hp]
          rw [hval] at h
          exact absurd h (by decide)
        | some r =>
          cases hc : env.connectOk with
          | false =>
            have hval : (proxyConc bl m uri v env).statusSent = some (strOf "404") := by
              simp [proxyConc, hm, hb, hp, hc]
            rw [hval] at h
            exact absurd h (by decide)
          | true =>
            have hval : (proxyConc bl m uri v env).statusSent = none := by
              simp [proxyConc, hm, hb, hp, hc]
            rw [hval] at h
            exact absurd h (by decide)
    · intro hb
      simp [proxyConc, hm, hb]

/-- Witness for C1 amended at the spec's scenario: a blocked hostname in
the sequential variant yields 403 with no connect attempt. -/
theorem blocklist_policy_amended_witness :
    (proxySeq [strOf "blocked.example.com"] (strOf "GET")
        (strOf "http://blocked.example.com/page") (strOf "HTTP/1.1")
        ⟨true, [], [], []⟩).statusSent = some (strOf "403") ∧
    (proxySeq [strOf "blocked.example.com"] (strOf "GET")
        (strOf "http://blocked.example.com/page") (strOf "HTTP/1.1")
        ⟨true, [], [], []⟩).connectAttempted = false ∧
    (proxySeq [strOf "blocked.example.com"] (strOf "GET")
        (strOf "http://blocked.example.com/page") (strOf "HTTP/1.1")
        ⟨true, [], [], []⟩).upstreamRequest = none :=
  (blocklist_policy_amended.1 [strOf "blocked.example.com"] (strOf "GET")
    (strOf "http://blocked.example.com/page") (strOf "HTTP/1.1") ⟨true, [], [], []⟩
    ⟨strOf "blocked.example.com", strOf "/page", 80⟩ (by decide) (by decide)).1 (by decide)

/-- C2 counterexample: `http://example.com` contains no boundary
character after the scheme prefix, so both resolvers fail on it instead
of resolving it with path `/`. -/
theorem uri_resolution_counterexample :
    parse_uri (strOf "http://example.com") = none ∧
    parse_uri_seq (strOf "http://example.com") = none := by
  refine ⟨by decide, by decide⟩

/-- C2 amended: `http://example.com:8080/a/b` resolves to hostname
`example.com`, port 8080, path `/a/b`; `http://example.com` fails (no
boundary character follows the host), on which the caller sends 400;
and every string lacking the accepted scheme prefix fails. -/
theorem uri_resolution_amended :
    parse_uri (strOf "http://example.com:8080/a/b") =
      some ⟨strOf "example.com", strOf "/a/b", 8080⟩ ∧
    parse_uri_seq (strOf "http://example.com:8080/a/b") =
      some ⟨strOf "example.com", strOf "/a/b", 8080⟩ ∧
    parse_uri (strOf "http://example.com") = none ∧
    (∀ uri, strncaseEq uri (strOf "http://") 7 = false → parse_uri uri = none) ∧
    (∀ uri, strncaseEq uri (strOf "http://") 7 = false →
      strncaseEq uri (strOf "https://") 8 = false → parse_uri_seq uri = none) ∧
    (∀ bl m uri v env, isGetOrHead m = true → blockedConc bl uri = false →
      strncaseEq uri (strOf "http://") 7 = false →
      (proxyConc bl m uri v env).statusSent = some (strOf "400")) ∧
    (∀ bl m uri v env, isGetOrHead m = true →
      strncaseEq uri (strOf "http://") 7 = false →
      strncaseEq uri (strOf "https://") 8 = false →
      (proxySeq bl m uri v env).statusSent = some (strOf "400")) := by
  refine ⟨by decide, by decide, by decide, ?_, ?_, ?_, ?_⟩
  · intro uri h
    simp [parse_uri, h]
  · intro uri h1 h2
    simp [parse_uri_seq, h1, h2]
  · intro bl m uri v env hm hb hu
    simp [proxyConc, hm, hb, parse_uri, hu]
  · intro bl m uri v env hm h1 h2
    simp [proxySeq, hm, parse_uri_seq, h1, h2]

/-- Witness for C2 amended at the concrete scheme-less URI `ftp://x`. -/
theorem uri_resolution_amended_witness :
    parse_uri (strOf "ftp://x") = none ∧
    (proxyConc [] (strOf "GET") (strOf "ftp://x") (strOf "HTTP/1.1")
      ⟨true, [], [], []⟩).statusSent = some (strOf "400") :=
  ⟨uri_resolution_amended.2.2.2.1 (strOf "ftp://x") (by decide),
    uri_resolution_amended.2.2.2.2.2.1 [] (strOf "GET") (strOf "ftp://x") (strOf "HTTP/1.1")
      ⟨true, [], [], []⟩ (by decide) (by decide) (by decide)⟩

/-- C5: evaluating the sequential resolver at an accepted `https://` URI
shows the hostname is not taken from just past the accepted prefix: the
`hostbegin = uri + 7` reset makes it start at the second slash, so the
extracted hostname is empty while the substring from past `https://` to
the first boundary character is `example.com`. -/
theorem https_hostname_clobbered :
    parse_uri_seq (strOf "https://example.com/x") =
      some ⟨[], strOf "/example.com/x", 80⟩ ∧
    (strOf "https://example.com/x").drop 8 = strOf "example.com/x" ∧
    strpbrkIdx boundarySet (strOf "example.com/x") = some 11 ∧
    (strOf "example.com/x").take 11 = strOf "example.com" ∧
    strOf "example.com" ≠ ([] : Str) := by
  refine ⟨by decide, by decide, by decide, by decide, by decide⟩


theorem getElem_append_cons {α} : ∀ (pre : List α) (x : α) (rest : List α)
    (h : pre.length < (pre ++ x :: rest).length), (pre ++ x :: rest)[pre.length] = x := by
  intro pre
  induction pre with
  | nil => intro x rest h; rfl
  | cons c t ih =>
    intro x rest h
    have h2 : t.length < (t ++ x :: rest).length := by simp
    simpa using ih x rest h2

/-- C10: when the hostname boundary is a colon and the characters after
it contain no decimal digit, both resolvers still succeed and `atoi`
yields port 0 rather than the default 80. -/
theorem colon_boundary_nondigit_port (host rest : Str)
    (hh : ∀ c ∈ host, boundarySet.contains c = false)
    (hr : ∀ c ∈ rest, c.isDigit = false) :
    ∃ pn, parse_uri (strOf "http://" ++ host ++ ':' :: rest) = some ⟨host, pn, 0⟩ ∧
      parse_uri_seq (strOf "http://" ++ host ++ ':' :: rest) = some ⟨host, pn, 0⟩ := by
  have hpre : strncaseEq (strOf "http://" ++ (host ++ ':' :: rest)) (strOf "http://") 7 = true :=
    strncaseEq_append_self (strOf "http://") (host ++ ':' :: rest)
  have hdrop7 : (strOf "http://" ++ (host ++ ':' :: rest)).drop 7 = host ++ ':' :: rest :=
    drop_append_self (strOf "http://") (host ++ ':' :: rest)
  have hfind : strpbrkIdx boundarySet (host ++ ':' :: rest) = some host.length :=
    strpbrkIdx_first_hit boundarySet host ':' rest hh (by decide)
  have hget : (host ++ ':' :: rest).get? host.length = some ':' :=
    get_opt_append_cons host ':' rest
  have htake : (host ++ ':' :: rest).take host.length = host :=
    take_append_self host (':' :: rest)
  have hdropc : (host ++ ':' :: rest).drop (host.length + 1) = rest :=
    drop_append_cons_succ host ':' rest
  have hatoi : atoi rest = 0 := atoi_no_digits rest hr
  have hgete : ∀ h2 : host.length < (host ++ ':' :: rest).length,
      (host ++ ':' :: rest)[host.length] = ':' :=
    fun h2 => getElem_append_cons host ':' rest h2
  refine ⟨(match strchrIdx '/' (host ++ ':' :: rest) with
           | some j => (host ++ ':' :: rest).drop j
           | none => strOf "/"), ?_, ?_⟩
  · simp [parse_uri, hpre, hdrop7, hfind, hget, htake, hdropc, hatoi]
    exact hgete (by simp)
  · simp [parse_uri_seq, hpre, hdrop7, hfind, hget, htake, hdropc, hatoi]
    exact hgete (by simp)

/-- Witness for C10 at the claim's example `http://host:/path`. -/
theorem colon_boundary_nondigit_port_witness :
    ∃ pn, parse_uri (strOf "http://" ++ strOf "host" ++ ':' :: strOf "/path") =
        some ⟨strOf "host", pn, 0⟩ ∧
      parse_uri_seq (strOf "http://" ++ strOf "host" ++ ':' :: strOf "/path") =
        some ⟨strOf "host", pn, 0⟩ :=
  colon_boundary_nondigit_port (strOf "host") (strOf "/path") (by decide) (by decide)

/-- C6: on every completed relayed transaction, in both variants, the
bytes forwarded to the client are exactly the concatenation of every
chunk read from upstream, and the byte count carried by the log record
equals the length of those forwarded bytes. -/
theorem logged_count_equals_forwarded_bytes (bl : List Str) (m uri v : Str) (env : ProxyEnv) :
    (∀ r, isGetOrHead m = true → blockedConc bl uri = false → parse_uri uri = some r →
      env.connectOk = true →
      (proxyConc bl m uri v env).clientBytes = env.responseChunks.flatten ∧
      (proxyConc bl m uri v env).logEntries =
        [format_log_entry env.timestamp env.clientIP uri
          (proxyConc bl m uri v env).clientBytes.length]) ∧
    (∀ r, isGetOrHead m = true → parse_uri_seq uri = some r →
      blockedSeq bl r.hostname = false → env.connectOk = true →
      (proxySeq bl m uri v env).clientBytes = env.responseChunks.flatten ∧
      (proxySeq bl m uri v env).logEntries =
        [format_log_entry env.timestamp env.clientIP uri
          (proxySeq bl m uri v env).clientBytes.length]) := by
  constructor
  · intro r hm hb hp hc
    refine ⟨by simp [proxyConc, hm, hb, hp, hc, relayLoop_fst_flatten], ?_⟩
    simp [proxyConc, hm, hb, hp, hc, relayLoop_snd_length]
  · intro r hm hp hb hc
    refine ⟨by simp [proxySeq, hm, hb, hp, hc, relayLoop_fst_flatten], ?_⟩
    simp [proxySeq, hm, hb, hp, hc, relayLoop_snd_length]

/-- Witness for C6 at a two-chunk upstream response. -/
theorem logged_count_equals_forwarded_bytes_witness :
    (proxyConc [] (strOf "GET") (strOf "http://h/") (strOf "HTTP/1.1")
      ⟨true, [strOf "HTTP/1.0 200 OK\r\n", strOf "body"], strOf "T", strOf "1.2.3.4"⟩).clientBytes =
      [strOf "HTTP/1.0 200 OK\r\n", strOf "body"].flatten ∧
    (proxyConc [] (strOf "GET") (strOf "http://h/") (strOf "HTTP/1.1")
      ⟨true, [strOf "HTTP/1.0 200 OK\r\n", strOf "body"], strOf "T", strOf "1.2.3.4"⟩).logEntries =
      [format_log_entry (strOf "T") (strOf "1.2.3.4") (strOf "http://h/")
        (proxyConc [] (strOf "GET") (strOf "http://h/") (strOf "HTTP/1.1")
          ⟨true, [strOf "HTTP/1.0 200 OK\r\n", strOf "body"], strOf "T",
            strOf "1.2.3.4"⟩).clientBytes.length] :=
  (logged_count_equals_forwarded_bytes [] (strOf "GET") (strOf "http://h/") (strOf "HTTP/1.1")
    ⟨true, [strOf "HTTP/1.0 200 OK\r\n", strOf "body"], strOf "T", strOf "1.2.3.4"⟩).1
    ⟨strOf "h", strOf "/", 80⟩ (by decide) (by decide) (by decide) (by decide)

/-- C8: no abort path (empty read, unsupported method, blocked URI,
malformed URI, connect failure) appends a log entry; a completed
transaction appends exactly one, and the record format is
`[<timestamp>] <client-ip> <uri> <bytes>`. -/
theorem log_line_exactly_on_completion (bl : List Str) (m uri v : Str) (env : ProxyEnv) :
    (proxyConcLine bl none env).logEntries = [] ∧
    (isGetOrHead m = false → (proxyConc bl m uri v env).logEntries = [] ∧
      (proxySeq bl m uri v env).logEntries = []) ∧
    (blockedConc bl uri = true → (proxyConc bl m uri v env).logEntries = []) ∧
    (parse_uri uri = none → (proxyConc bl m uri v env).logEntries = []) ∧
    (env.connectOk = false → (proxyConc bl m uri v env).logEntries = [] ∧
      (proxySeq bl m uri v env).logEntries = []) ∧
    (∀ r, isGetOrHead m = true → blockedConc bl uri = false → parse_uri uri = some r →
      env.connectOk = true →
      (proxyConc bl m uri v env).logEntries =
        [format_log_entry env.timestamp env.clientIP uri (relayLoop env.responseChunks).2]) ∧
    (∀ r, isGetOrHead m = true → parse_uri_seq uri = some r →
      blockedSeq bl r.hostname = false → env.connectOk = true →
      (proxySeq bl m uri v env).logEntries =
        [format_log_entry env.timestamp env.clientIP uri (relayLoop env.responseChunks).2]) ∧
    (∀ ts ip u n, format_log_entry ts ip u n =
      strOf "[" ++ ts ++ strOf "] " ++ ip ++ strOf " " ++ u ++ strOf " " ++ natChars n) := by
  refine ⟨rfl, ?_, ?_, ?_, ?_, ?_, ?_, fun ts ip u n => rfl⟩
  · intro h
    exact ⟨by simp [proxyConc, h], by simp [proxySeq, h]⟩
  · intro hb
    cases hm : isGetOrHead m with
    | false => simp [proxyConc, hm]
    | true => simp [proxyConc, hm, hb]
  · intro hp
    cases hm : isGetOrHead m with
    | false => simp [proxyConc, hm]
    | true =>
      cases hb : blockedConc bl uri with
      | true => simp [proxyConc, hm, hb]
      | false => simp [proxyConc, hm, hb, hp]
  · intro hc
    constructor
    · cases hm : isGetOrHead m with
      | false => simp [proxyConc, hm]
      | true =>
        cases hb : blockedConc bl uri with
        | true => simp [proxyConc, hm, hb]
        | false =>
          cases hp : parse_uri uri with
          | none => simp [proxyConc, hm, hb, hp]
          | some r => simp [proxyConc, hm, hb, hp, hc]
    · cases hm : isGetOrHead m with
      | false => simp [proxySeq, hm]
      | true =>
        cases hp : parse_uri_seq uri with
        | none => simp [proxySeq, hm, hp]
        | some r =>
          cases hb : blockedSeq bl r.hostname with
          | true => simp [proxySeq, hm, hp, hb]
          | false => simp [proxySeq, hm, hp, hb, hc]
  · intro r hm hb hp hc
    simp [proxyConc, hm, hb, hp, hc]
  · intro r hm hp hb hc
    simp [proxySeq, hm, hp, hb, hc]

/-- Witness for C8 on a completed transaction. -/
theorem log_line_exactly_on_completion_witness :
    (proxyConc [] (strOf "GET") (strOf "http://h/") (strOf "HTTP/1.1")
      ⟨true, [strOf "ok"], strOf "T", strOf "9.9.9.9"⟩).logEntries =
      [format_log_entry (strOf "T") (strOf "9.9.9.9") (strOf "http://h/")
        (relayLoop [strOf "ok"]).2] :=
  (log_line_exactly_on_completion [] (strOf "GET") (strOf "http://h/") (strOf "HTTP/1.1")
    ⟨true, [strOf "ok"], strOf "T", strOf "9.9.9.9"⟩).2.2.2.2.2.1
    ⟨strOf "h", strOf "/", 80⟩ (by decide) (by decide) (by decide) (by decide)


/-- C7: every client-recoverable error path sends, via `clienterror`, an
HTTP/1.0 status line with the matching code and reason, a Content-type
header, and a Content-length equal to the byte length of the HTML body,
which embeds the status code, short reason, long description and cause;
and each of the four error classes reaches `clienterror` with its
documented arguments. -/
theorem error_responses_wellformed (cause errnum shortmsg longmsg : Str) (bl : List Str)
    (m uri v : Str) (env : ProxyEnv) :
    (clienterrorResponse cause errnum shortmsg longmsg =
      strOf "HTTP/1.0 " ++ errnum ++ strOf " " ++ shortmsg ++ strOf "\r\n" ++
        strOf "Content-type: text/html\r\n" ++
        strOf "Content-length: " ++
        natChars (clienterrorBody cause errnum shortmsg longmsg).length ++ strOf "\r\n\r\n" ++
        clienterrorBody cause errnum shortmsg longmsg) ∧
    strstrB (clienterrorBody cause errnum shortmsg longmsg) errnum = true ∧
    strstrB (clienterrorBody cause errnum shortmsg longmsg) shortmsg = true ∧
    strstrB (clienterrorBody cause errnum shortmsg longmsg) longmsg = true ∧
    strstrB (clienterrorBody cause errnum shortmsg longmsg) cause = true ∧
    (clienterrorResponseSeq cause errnum shortmsg longmsg =
      strOf "HTTP/1.0 " ++ errnum ++ strOf " " ++ shortmsg ++ strOf "\r\n" ++
        strOf "Content-type: text/html\r\n" ++
        strOf "Content-length: " ++
        natChars (clienterrorBodySeq cause errnum shortmsg longmsg).length ++ strOf "\r\n\r\n" ++
        clienterrorBodySeq cause errnum shortmsg longmsg) ∧
    strstrB (clienterrorBodySeq cause errnum shortmsg longmsg) errnum = true ∧
    strstrB (clienterrorBodySeq cause errnum shortmsg longmsg) shortmsg = true ∧
    strstrB (clienterrorBodySeq cause errnum shortmsg longmsg) longmsg = true ∧
    strstrB (clienterrorBodySeq cause errnum shortmsg longmsg) cause = true ∧
    (isGetOrHead m = false →
      (proxyConc bl m uri v env).clientBytes =
        clienterrorResponse m (strOf "501") (strOf "Not Implemented")
          (strOf "This method is not implemented by the proxy")) ∧
    (isGetOrHead m = true → blockedConc bl uri = true →
      (proxyConc bl m uri v env).clientBytes =
        clienterrorResponse (strOf "Blocked") (strOf "403") (strOf "Forbidden")
          (strOf "This site is blocked by the proxy.")) ∧
    (isGetOrHead m = true → blockedConc bl uri = false → parse_uri uri = none →
      (proxyConc bl m uri v env).clientBytes =
        clienterrorResponse uri (strOf "400") (strOf "Bad Request")
          (strOf "Proxy cannot parse the request")) ∧
    (∀ r, isGetOrHead m = true → blockedConc bl uri = false → parse_uri uri = some r →
      env.connectOk = false →
      (proxyConc bl m uri v env).clientBytes =
        clienterrorResponse r.hostname (strOf "404") (strOf "Not found")
          (strOf "Cannot connect to the host")) := by
  refine ⟨rfl, ?_, ?_, ?_, ?_, rfl, ?_, ?_, ?_, ?_, ?_, ?_, ?_, ?_⟩
  · simp only [clienterrorBody, List.append_assoc]
    repeat first
      | exact strstrB_prefix_occurrence _ _
      | apply strstrB_append_left
  · simp only [clienterrorBody, List.append_assoc]
    repeat first
      | exact strstrB_prefix_occurrence _ _
      | apply strstrB_append_left
  · simp only [clienterrorBody, List.append_assoc]
    repeat first
      | exact strstrB_prefix_occurrence _ _
      | apply strstrB_append_left
  · simp only [clienterrorBody, List.append_assoc]
    repeat first
      | exact strstrB_prefix_occurrence _ _
      | apply strstrB_append_left
  · simp only [clienterrorBodySeq, List.append_assoc]
    repeat first
      | exact strstrB_prefix_occurrence _ _
      | apply strstrB_append_left
  · simp only [clienterrorBodySeq, List.append_assoc]
    repeat first
      | exact strstrB_prefix_occurrence _ _
      | apply strstrB_append_left
  · simp only [clienterrorBodySeq, List.append_assoc]
    repeat first
      | exact strstrB_prefix_occurrence _ _
      | apply strstrB_append_left
  · simp only [clienterrorBodySeq, List.append_assoc]
    repeat first
      | exact strstrB_prefix_occurrence _ _
      | apply strstrB_append_left
  · intro h
    simp [proxyConc, h]
  · intro hm hb
    simp [proxyConc, hm, hb]
  · intro hm hb hp
    simp [proxyConc, hm, hb, hp]
  · intro r hm hb hp hc
    simp [proxyConc, hm, hb, hp, hc]

/-- Witness for C7: the 501 path of the concurrent variant at method PUT. -/
theorem error_responses_wellformed_witness :
    (proxyConc [] (strOf "PUT") (strOf "http://x/") (strOf "HTTP/1.1")
      ⟨true, [], [], []⟩).clientBytes =
      clienterrorResponse (strOf "PUT") (strOf "501") (strOf "Not Implemented")
        (strOf "This method is not implemented by the proxy") :=
  (error_responses_wellformed (strOf "PUT") (strOf "501") (strOf "Not Implemented")
    (strOf "x") [] (strOf "PUT") (strOf "http://x/") (strOf "HTTP/1.1")
    ⟨true, [], [], []⟩).2.2.2.2.2.2.2.2.2.2.1 (by decide)

/-- C3: for every successfully relayed request the bytes sent upstream
(as a single write) are exactly the method, path and `HTTP/1.0` request
line, a Host header, one fixed User-Agent header line (in the
concurrent variant carrying a doubled `User-Agent: ` prefix), then the
two close headers — independent of the client's declared version. -/
theorem upstream_request_bytes (bl : List Str) (m uri v v2 : Str) (env : ProxyEnv) :
    proxyConc bl m uri v env = proxyConc bl m uri v2 env ∧
    proxySeq bl m uri v env = proxySeq bl m uri v2 env ∧
    uaLineConc = strOf "User-Agent: User-Agent: Mozilla/5.0 (X11; Linux x86_64; rv:10.0.3) Gecko/20120305 Firefox/10.0.3\r\n" ∧
    countOcc (strOf "\r\n") uaLineConc = 1 ∧
    hasPrefixB uaLineConc (strOf "User-Agent: ") = true ∧
    user_agent_hdr = strOf "User-Agent: Mozilla/5.0 (X11; Linux x86_64; rv:10.0.3) Gecko/20120305 Firefox/10.0.3\r\n" ∧
    countOcc (strOf "\r\n") user_agent_hdr = 1 ∧
    hasPrefixB user_agent_hdr (strOf "User-Agent: ") = true ∧
    (∀ r, isGetOrHead m = true → blockedConc bl uri = false → parse_uri uri = some r →
      env.connectOk = true →
      (proxyConc bl m uri v env).upstreamRequest =
        some (m ++ strOf " " ++ r.pathname ++ strOf " HTTP/1.0\r\nHost: " ++ r.hostname ++
          strOf "\r\n" ++ uaLineConc ++
          strOf "Connection: close\r\nProxy-Connection: close\r\n\r\n")) ∧
    (∀ r, isGetOrHead m = true → parse_uri_seq uri = some r → blockedSeq bl r.hostname = false →
      env.connectOk = true →
      (proxySeq bl m uri v env).upstreamRequest =
        some (m ++ strOf " " ++ r.pathname ++ strOf " HTTP/1.0\r\nHost: " ++ r.hostname ++
          strOf "\r\n" ++ user_agent_hdr ++
          strOf "Connection: close\r\nProxy-Connection: close\r\n\r\n")) := by
  refine ⟨rfl, rfl, by decide, by decide, by decide, by decide, by decide, by decide, ?_, ?_⟩
  · intro r hm hb hp hc
    have hpn : r.pathname ≠ [] := parse_uri_path_ne_nil uri r hp
    simp [proxyConc, hm, hb, hp, hc, upstreamRequestConc, hpn, uaLineConc, List.append_assoc]
  · intro r hm hp hb hc
    have hpn : r.pathname ≠ [] := parse_uri_seq_path_ne_nil uri r hp
    simp [proxySeq, hm, hp, hb, hc, upstreamRequestSeq, hpn, List.append_assoc]

/-- Witness for C3 at a concrete resolved request. -/
theorem upstream_request_bytes_witness :
    (proxyConc [] (strOf "GET") (strOf "http://example.com:8080/a/b") (strOf "HTTP/1.1")
      ⟨true, [], [], []⟩).upstreamRequest =
      some (strOf "GET" ++ strOf " " ++ strOf "/a/b" ++ strOf " HTTP/1.0\r\nHost: " ++
        strOf "example.com" ++ strOf "\r\n" ++ uaLineConc ++
        strOf "Connection: close\r\nProxy-Connection: close\r\n\r\n") :=
  (upstream_request_bytes [] (strOf "GET") (strOf "http://example.com:8080/a/b")
    (strOf "HTTP/1.1") (strOf "HTTP/1.0") ⟨true, [], [], []⟩).2.2.2.2.2.2.2.2.1
    ⟨strOf "example.com", strOf "/a/b", 8080⟩ (by decide) (by decide) (by decide) (by decide)


theorem getD_set_self {α} (d v : α) :
    ∀ (l : List α) (i : Nat), i < l.length → (l.set i v).getD i d = v := by
  intro l
  induction l with
  | nil => intro i h; simp at h
  | cons a t ih =>
    intro i h
    cases i with
    | zero => rfl
    | succ n => exact ih n (Nat.lt_of_succ_lt_succ h)

theorem getD_set_ne {α} (d v : α) :
    ∀ (l : List α) (i j : Nat), i ≠ j → (l.set i v).getD j d = l.getD j d := by
  intro l
  induction l with
  | nil => intro i j h; rfl
  | cons a t ih =>
    intro i j h
    cases i with
    | zero =>
      cases j with
      | zero => exact absurd rfl h
      | succ m => rfl
    | succ n =>
      cases j with
      | zero => rfl
      | succ m => exact ih n m (fun he => h (by rw [he]))

theorem getD_oob {α} (d : α) : ∀ (l : List α) (i : Nat), l.length ≤ i → l.getD i d = d := by
  intro l
  induction l with
  | nil => intro i h; cases i <;> rfl
  | cons a t ih =>
    intro i h
    cases i with
    | zero => simp at h
    | succ n => exact ih n (Nat.le_of_succ_le_succ h)

theorem getD_map_logpath : ∀ (l : List Str) (i : Nat), i < l.length →
    (l.map log_path_actions).getD i [] = log_path_actions (l.getD i []) := by
  intro l
  induction l with
  | nil => intro i h; simp at h
  | cons a t ih =>
    intro i h
    cases i with
    | zero => rfl
    | succ n => exact ih n (Nat.lt_of_succ_lt_succ h)

theorem take_succ_of_drop {α} : ∀ (l : List α) (n : Nat) (x : α) (t : List α),
    l.drop n = x :: t → l.take (n + 1) = l.take n ++ [x] := by
  intro l
  induction l with
  | nil => intro n x t h; simp at h
  | cons a l2 ih =>
    intro n x t h
    cases n with
    | zero =>
      have h2 := (List.cons.inj h).1
      simp [h2]
    | succ m =>
      have h2 := ih m x t (by simpa using h)
      simp [h2]

theorem drop_succ_eq_tail {α} : ∀ (l : List α) (n : Nat), l.drop (n + 1) = (l.drop n).tail := by
  intro l
  induction l with
  | nil => intro n; cases n <;> rfl
  | cons a t ih =>
    intro n
    cases n with
    | zero => rfl
    | succ m => exact ih m

theorem idleProg_cases (entries : List Str) (i : Nat) (a : LogAction) (rest : List LogAction)
    (h : idleProg entries i (a :: rest)) :
    (a = LogAction.doFormat ∧ rest = log_request_actions (entries.getD i [])) ∨
    (a = LogAction.lock ∧
      rest = (logRecord entries i).map LogAction.write ++
        [LogAction.flush, LogAction.unlock]) := by
  rcases h with h | h
  · left
    have h2 : log_path_actions (entries.getD i []) =
        LogAction.doFormat :: log_request_actions (entries.getD i []) := rfl
    rw [h2] at h
    exact ⟨(List.cons.inj h).1, (List.cons.inj h).2⟩
  · right
    have h2 : log_request_actions (entries.getD i []) =
        LogAction.lock :: ((entries.getD i [] ++ strOf "\n").map LogAction.write ++
          [LogAction.flush, LogAction.unlock]) := rfl
    rw [h2] at h
    exact ⟨(List.cons.inj h).1, (List.cons.inj h).2⟩

theorem holdProg_cases (rec : Str) (a : LogAction) (rest : List LogAction) (written : Str)
    (h : holdProg rec (a :: rest) written) :
    (∃ x t n, rec.drop n = x :: t ∧ n < rec.length ∧ written = rec.take n ∧
      a = LogAction.write x ∧
      rest = t.map LogAction.write ++ [LogAction.flush, LogAction.unlock]) ∨
    (a = LogAction.flush ∧ written = rec ∧ rest = [LogAction.unlock]) ∨
    (a = LogAction.unlock ∧ written = rec ∧ rest = []) := by
  rcases h with ⟨n, hn, hw, hp⟩ | ⟨hw, hp⟩
  · cases hd : rec.drop n with
    | nil =>
      rw [hd] at hp
      simp only [List.map_nil, List.nil_append] at hp
      have hlen0 : rec.length - n = 0 := by
        have := congrArg List.length hd
        simpa using this
      have hnlen : n = rec.length := by omega
      right; left
      refine ⟨(List.cons.inj hp).1, ?_, (List.cons.inj hp).2⟩
      rw [hw, hnlen, List.take_length]
    | cons x t =>
      rw [hd] at hp
      simp only [List.map_cons, List.cons_append] at hp
      have hlt : n < rec.length := by
        have := congrArg List.length hd
        simp [List.length_drop] at this
        omega
      left
      exact ⟨x, t, n, hd, hlt, hw, (List.cons.inj hp).1, (List.cons.inj hp).2⟩
  · right; right
    exact ⟨(List.cons.inj hp).1, hw, (List.cons.inj hp).2⟩

theorem logStep_preserves_inv (entries : List Str) (s s2 : LogSys) (i : Nat)
    (hinv : LogInv entries s) (hstep : logStep s i = some s2) : LogInv entries s2 := by
  obtain ⟨shold, sprogs, sout⟩ := s
  obtain ⟨hlen, done, hnd, hbound, hrest⟩ := hinv
  simp only at hlen hrest
  unfold logStep at hstep
  simp only at hstep
  cases hp : sprogs.getD i [] with
  | nil => rw [hp] at hstep; exact absurd hstep (by simp)
  | cons a rest =>
    rw [hp] at hstep
    have hik : i < entries.length := by
      by_contra hge
      push_neg at hge
      have h0 : sprogs.getD i [] = [] := getD_oob [] sprogs i (by rw [hlen]; exact hge)
      rw [hp] at h0
      exact absurd h0 (by simp)
    cases a with
    | doFormat =>
      have hs2 : s2 = ⟨shold, sprogs.set i rest, sout⟩ := (Option.some.inj hstep).symm
      subst hs2
      refine ⟨by simpa using hlen, done, hnd, hbound, ?_⟩
      cases hh : shold with
      | none =>
        rw [hh] at hrest
        obtain ⟨hout, hall⟩ := hrest
        simp only
        refine ⟨hout, ?_⟩
        intro i2 hi2
        by_cases hii : i2 = i
        · subst hii
          have hidone : i2 ∉ done := by
            intro hmem
            have h0 := (hall i2 hi2).1 hmem
            rw [hp] at h0
            exact absurd h0 (by simp)
          have hidle := (hall i2 hi2).2 hidone
          rw [hp] at hidle
          rcases idleProg_cases entries i2 _ _ hidle with ⟨_, hr2⟩ | ⟨hcon, _⟩
          · constructor
            · intro hmem; exact absurd hmem hidone
            · intro _
              rw [getD_set_self [] rest sprogs i2 (by rw [hlen]; exact hi2)]
              right
              exact hr2
          · exact absurd hcon (by simp)
        · rw [getD_set_ne [] rest sprogs i i2 (fun he => hii he.symm)]
          exact hall i2 hi2
      | some j =>
        rw [hh] at hrest
        obtain ⟨hjk, hjd, written, hout, hhold, hall⟩ := hrest
        have hij : i ≠ j := by
          intro he
          subst he
          rw [hp] at hhold
          rcases holdProg_cases _ _ _ _ hhold with
            ⟨x, t, n, _, _, _, hcon, _⟩ | ⟨hcon, _, _⟩ | ⟨hcon, _, _⟩ <;>
            exact absurd hcon (by simp)
        simp only
        refine ⟨hjk, hjd, written, hout, ?_, ?_⟩
        · rw [getD_set_ne [] rest sprogs i j hij]
          exact hhold
        · intro i2 hi2 hi2j
          by_cases hii : i2 = i
          · subst hii
            have hidone : i2 ∉ done := by
              intro hmem
              have h0 := (hall i2 hi2 hi2j).1 hmem
              rw [hp] at h0
              exact absurd h0 (by simp)
            have hidle := (hall i2 hi2 hi2j).2 hidone
            rw [hp] at hidle
            rcases idleProg_cases entries i2 _ _ hidle with ⟨_, hr2⟩ | ⟨hcon, _⟩
            · constructor
              · intro hmem; exact absurd hmem hidone
              · intro _
                rw [getD_set_self [] rest sprogs i2 (by rw [hlen]; exact hi2)]
                right
                exact hr2
            · exact absurd hcon (by simp)
          · rw [getD_set_ne [] rest sprogs i i2 (fun he => hii he.symm)]
            exact hall i2 hi2 hi2j
    | lock =>
      cases hh : shold with
      | some j => rw [hh] at hstep; exact absurd hstep (by simp)
      | none =>
        rw [hh] at hstep
        have hs2 : s2 = ⟨some i, sprogs.set i rest, sout⟩ := (Option.some.inj hstep).symm
        subst hs2
        rw [hh] at hrest
        obtain ⟨hout, hall⟩ := hrest
        have hidone : i ∉ done := by
          intro hmem
          have h0 := (hall i hik).1 hmem
          rw [hp] at h0
          exact absurd h0 (by simp)
        have hidle := (hall i hik).2 hidone
        rw [hp] at hidle
        rcases idleProg_cases entries i _ _ hidle with ⟨hcon, _⟩ | ⟨_, hr2⟩
        · exact absurd hcon (by simp)
        refine ⟨by simpa using hlen, done, hnd, hbound, ?_⟩
        simp only
        refine ⟨hik, hidone, [], by simpa using hout, ?_, ?_⟩
        · rw [getD_set_self [] rest sprogs i (by rw [hlen]; exact hik)]
          left
          exact ⟨0, by simp, by simp, by simpa using hr2⟩
        · intro i2 hi2 hi2i
          rw [getD_set_ne [] rest sprogs i i2 (fun he => hi2i he.symm)]
          exact hall i2 hi2
    | write c =>
      have hs2 : s2 = ⟨shold, sprogs.set i rest, sout ++ [c]⟩ := (Option.some.inj hstep).symm
      subst hs2
      cases hh : shold with
      | none =>
        exfalso
        rw [hh] at hrest
        obtain ⟨hout, hall⟩ := hrest
        have hidone : i ∉ done := by
          intro hmem
          have h0 := (hall i hik).1 hmem
          rw [hp] at h0
          exact absurd h0 (by simp)
        have hidle := (hall i hik).2 hidone
        rw [hp] at hidle
        rcases idleProg_cases entries i _ _ hidle with ⟨hcon, _⟩ | ⟨hcon, _⟩ <;>
          exact absurd hcon (by simp)
      | some j =>
        rw [hh] at hrest
        obtain ⟨hjk, hjd, written, hout, hhold, hall⟩ := hrest
        by_cases hij : i = j
        case neg =>
          exfalso
          have hidone : i ∉ done := by
            intro hmem
            have h0 := (hall i hik hij).1 hmem
            rw [hp] at h0
            exact absurd h0 (by simp)
          have hidle := (hall i hik hij).2 hidone
          rw [hp] at hidle
          rcases idleProg_cases entries i _ _ hidle with ⟨hcon, _⟩ | ⟨hcon, _⟩ <;>
            exact absurd hcon (by simp)
        case pos =>
          subst hij
          rw [hp] at hhold
          rcases holdProg_cases _ _ _ _ hhold with
            ⟨x, t, n, hd, hlt, hw, hcx, hr2⟩ | ⟨hcon, _, _⟩ | ⟨hcon, _, _⟩
          · have hcx2 : c = x := by injection hcx
            subst hcx2
            refine ⟨by simpa using hlen, done, hnd, hbound, ?_⟩
            simp only
            refine ⟨hjk, hjd, written ++ [c], by rw [hout, List.append_assoc], ?_, ?_⟩
            · rw [getD_set_self [] rest sprogs i (by rw [hlen]; exact hik)]
              left
              refine ⟨n + 1, by omega, ?_, ?_⟩
              · rw [hw, take_succ_of_drop (logRecord entries i) n c t hd]
              · rw [drop_succ_eq_tail, hd]
                simpa using hr2
            · intro i2 hi2 hi2i
              rw [getD_set_ne [] rest sprogs i i2 (fun he => hi2i he.symm)]
              exact hall i2 hi2 hi2i
          · exact absurd hcon (by simp)
          · exact absurd hcon (by simp)
    | flush =>
      have hs2 : s2 = ⟨shold, sprogs.set i rest, sout⟩ := (Option.some.inj hstep).symm
      subst hs2
      cases hh : shold with
      | none =>
        exfalso
        rw [hh] at hrest
        obtain ⟨hout, hall⟩ := hrest
        have hidone : i ∉ done := by
          intro hmem
          have h0 := (hall i hik).1 hmem
          rw [hp] at h0
          exact absurd h0 (by simp)
        have hidle := (hall i hik).2 hidone
        rw [hp] at hidle
        rcases idleProg_cases entries i _ _ hidle with ⟨hcon, _⟩ | ⟨hcon, _⟩ <;>
          exact absurd hcon (by simp)
      | some j =>
        rw [hh] at hrest
        obtain ⟨hjk, hjd, written, hout, hhold, hall⟩ := hrest
        by_cases hij : i = j
        case neg =>
          exfalso
          have hidone : i ∉ done := by
            intro hmem
            have h0 := (hall i hik hij).1 hmem
            rw [hp] at h0
            exact absurd h0 (by simp)
          have hidle := (hall i hik hij).2 hidone
          rw [hp] at hidle
          rcases idleProg_cases entries i _ _ hidle with ⟨hcon, _⟩ | ⟨hcon, _⟩ <;>
            exact absurd hcon (by simp)
        case pos =>
          subst hij
          rw [hp] at hhold
          rcases holdProg_cases _ _ _ _ hhold with
            ⟨x, t, n, hd, hlt, hw, hcon, hr2⟩ | ⟨_, hwr, hr2⟩ | ⟨hcon, _, _⟩
          · exact absurd hcon (by simp)
          · refine ⟨by simpa using hlen, done, hnd, hbound, ?_⟩
            simp only
            refine ⟨hjk, hjd, written, hout, ?_, ?_⟩
            · rw [getD_set_self [] rest sprogs i (by rw [hlen]; exact hik)]
              right
              exact ⟨hwr, hr2⟩
            · intro i2 hi2 hi2i
              rw [getD_set_ne [] rest sprogs i i2 (fun he => hi2i he.symm)]
              exact hall i2 hi2 hi2i
          · exact absurd hcon (by simp)
    | unlock =>
      dsimp only at hstep
      cases hh : shold with
      | none =>
        rw [hh] at hstep
        rw [if_neg (by simp)] at hstep
        exact absurd hstep (by simp)
      | some j =>
        rw [hh] at hstep
        by_cases hij : j = i
        case neg =>
          rw [if_neg (fun he => hij (Option.some.inj he))] at hstep
          exact absurd hstep (by simp)
        case pos =>
          subst hij
          rw [if_pos rfl] at hstep
          have hs2 : s2 = ⟨none, sprogs.set j rest, sout⟩ := (Option.some.inj hstep).symm
          subst hs2
          rw [hh] at hrest
          obtain ⟨hjk, hjd, written, hout, hhold, hall⟩ := hrest
          rw [hp] at hhold
          rcases holdProg_cases _ _ _ _ hhold with
            ⟨x, t, n, hd, hlt, hw, hcon, hr2⟩ | ⟨hcon, _, _⟩ | ⟨_, hwr, hr2⟩
          · exact absurd hcon (by simp)
          · exact absurd hcon (by simp)
          · refine ⟨by simpa using hlen, done ++ [j], ?_, ?_, ?_⟩
            · simp [List.nodup_append, hnd, hjd]
            · intro x hx
              rcases List.mem_append.mp hx with hx2 | hx2
              · exact hbound x hx2
              · simp at hx2; subst hx2; exact hjk
            · simp only
              refine ⟨?_, ?_⟩
              · rw [hout, hwr]
                simp [List.flatten_append]
              · intro i2 hi2
                by_cases hii : i2 = j
                · subst hii
                  constructor
                  · intro _
                    rw [getD_set_self [] rest sprogs i2 (by rw [hlen]; exact hi2), hr2]
                  · intro hmem
                    exact absurd (by simp : i2 ∈ done ++ [i2]) hmem
                · rw [getD_set_ne [] rest sprogs j i2 (fun he => hii he.symm)]
                  have h3 := hall i2 hi2 hii
                  constructor
                  · intro hmem
                    rcases List.mem_append.mp hmem with hm | hm
                    · exact h3.1 hm
                    · simp at hm; exact absurd hm hii
                  · intro hmem
                    exact h3.2 (fun hm => hmem (List.mem_append.mpr (Or.inl hm)))


theorem takeWhile_writes (l : Str) :
    List.takeWhile (fun a => !(a == LogAction.unlock))
      (l.map LogAction.write ++ [LogAction.flush, LogAction.unlock]) =
      l.map LogAction.write ++ [LogAction.flush] := by
  induction l with
  | nil => rfl
  | cons c t ih =>
    have hg : (LogAction.write c == LogAction.unlock) = false := rfl
    simp only [List.map_cons, List.cons_append, List.takeWhile_cons, hg]
    simp [ih]

theorem criticalSection_log_path (e : Str) :
    criticalSection (log_path_actions e) =
      (e ++ strOf "\n").map LogAction.write ++ [LogAction.flush] := by
  have h1 : (log_path_actions e).dropWhile (fun a => !(a == LogAction.lock)) =
      LogAction.lock :: ((e ++ strOf "\n").map LogAction.write ++
        [LogAction.flush, LogAction.unlock]) := rfl
  unfold criticalSection
  rw [h1]
  exact takeWhile_writes (e ++ strOf "\n")

theorem logInit_inv (entries : List Str) : LogInv entries (logInit entries) := by
  refine ⟨by simp [logInit], [], by simp, by simp, ?_⟩
  simp only [logInit]
  refine ⟨by simp, ?_⟩
  intro i hi
  constructor
  · intro hmem; simp at hmem
  · intro _
    rw [getD_map_logpath entries i hi]
    left
    rfl

theorem logRun_preserves_inv (entries : List Str) :
    ∀ (sched : List Nat) (s fin : LogSys), LogInv entries s →
      logRun sched s = some fin → LogInv entries fin := by
  intro sched
  induction sched with
  | nil =>
    intro s fin hinv hrun
    exact (Option.some.inj hrun) ▸ hinv
  | cons i sch ih =>
    intro s fin hinv hrun
    unfold logRun at hrun
    cases hs : logStep s i with
    | none => rw [hs] at hrun; exact absurd hrun (by simp)
    | some s2 =>
      rw [hs] at hrun
      exact ih s2 fin (logStep_preserves_inv entries s s2 i hinv hs) hrun

theorem logRun_complete_out (entries : List Str) (sched : List Nat) (fin : LogSys)
    (hrun : logRun sched (logInit entries) = some fin)
    (hdone : ∀ i, i < entries.length → fin.progs.getD i [] = []) :
    ∃ ord : List Nat, ord.Perm (List.range entries.length) ∧
      fin.out = (ord.map (logRecord entries)).flatten := by
  have hinv := logRun_preserves_inv entries sched (logInit entries) fin (logInit_inv entries) hrun
  obtain ⟨hlen, done, hnd, hbound, hrest⟩ := hinv
  cases hh : fin.holder with
  | some j =>
    exfalso
    rw [hh] at hrest
    obtain ⟨hjk, hjd, written, hout, hhold, hall⟩ := hrest
    rw [hdone j hjk] at hhold
    rcases hhold with ⟨n, hn, hw, hp⟩ | ⟨hw, hp⟩
    · exact absurd hp (by simp)
    · exact absurd hp (by simp)
  | none =>
    rw [hh] at hrest
    obtain ⟨hout, hall⟩ := hrest
    refine ⟨done, ?_, hout⟩
    rw [List.perm_ext_iff_of_nodup hnd (List.nodup_range _)]
    intro x
    constructor
    · intro hx
      simp only [List.mem_range]
      exact hbound x hx
    · intro hx
      rw [List.mem_range] at hx
      by_contra hnx
      have h2 := (hall x hx).2 hnx
      rw [hdone x hx] at h2
      rcases h2 with h2 | h2
      · exact absurd h2 (by simp [log_path_actions])
      · exact absurd h2 (by simp [log_request_actions])

/-- C9 counterexample: the `format_log_entry` step happens before the
mutex is taken, so the critical section of the logging path covers only
the write and flush steps — not the format step the claim includes. -/
theorem format_outside_critical_section :
    LogAction.doFormat ∉ criticalSection (log_path_actions (strOf "x")) ∧
    criticalSection (log_path_actions (strOf "x")) =
      (strOf "x\n").map LogAction.write ++ [LogAction.flush] :=
  ⟨by decide, by decide⟩

/-- C9 amended: the mutex-guarded critical section covers the write and
flush of the pre-formatted record (formatting happens before the lock,
on thread-private data), and mutual exclusion still holds — every
complete interleaved execution of the per-connection logging paths
produces the log records whole, in some order, never interleaved at the
byte level. -/
theorem log_mutex_no_interleaving :
    (∀ e, criticalSection (log_path_actions e) =
      (e ++ strOf "\n").map LogAction.write ++ [LogAction.flush]) ∧
    (∀ (entries : List Str) (sched : List Nat) (fin : LogSys),
      logRun sched (logInit entries) = some fin →
      (∀ i, i < entries.length → fin.progs.getD i [] = []) →
      ∃ ord : List Nat, ord.Perm (List.range entries.length) ∧
        fin.out = (ord.map (logRecord entries)).flatten) :=
  ⟨criticalSection_log_path, logRun_complete_out⟩

/-- Witness for C9 amended: two concurrent handlers under a schedule in
which thread 1 formats while thread 0 is inside its critical section;
the final log is the two whole records in lock order. -/
theorem log_mutex_no_interleaving_witness :
    criticalSection (log_path_actions (strOf "a")) =
      (strOf "a" ++ strOf "\n").map LogAction.write ++ [LogAction.flush] ∧
    (∃ ord : List Nat, ord.Perm (List.range 2) ∧
      (strOf "a\nb\n" : Str) = (ord.map (logRecord [strOf "a", strOf "b"])).flatten) :=
  ⟨log_mutex_no_interleaving.1 (strOf "a"),
    log_mutex_no_interleaving.2 [strOf "a", strOf "b"]
      [0, 1, 0, 0, 0, 0, 0, 1, 1, 1, 1, 1]
      ⟨none, [[], []], strOf "a\nb\n"⟩ (by decide) (by decide)⟩


end CS428Proxy
